import Mathlib

/-!
Shallow embedding of the Supertonic NVDA synthesizer driver
(src/synthDrivers/supertonic/__init__.py).

Embedded here: the per-chunk audio post-processing performed by the
streaming worker (_SynthQueueThread.run, lines 92-104), the worker's
per-request processing loop with its four cancel_event reads (lines
64-113), and the driver facade operations speak (lines 257-281),
cancel (lines 283-295) and _initialize_async (lines 187-209).

The helper module (chunk_text, the ONNX engine) is not part of src/,
so text chunking and inference are abstracted as environment functions:
the worker treats both as opaque callees, which is faithful to how the
code under src/ consumes them.
-/

namespace Supertonic

/-- Truncation toward zero of a rational number, which is what
numpy astype(np.int16) does to an in-range floating value
(C-style float-to-integer conversion, line 101). -/
def truncInt (x : ℚ) : ℤ := if 0 ≤ x then ⌊x⌋ else ⌈x⌉

/-- np.clip(wav_amplified, -1.0, 1.0) from line 98 of the worker. -/
def clip (x : ℚ) : ℚ := min 1 (max (-1) x)

/-- volume_factor = (self.driver._volume / 100.0) * 2.0 (line 94). -/
def volumeFactor (volume : ℚ) : ℚ := volume / 100 * 2

/-- One sample of audio_int16 (lines 94-101): amplify by the volume
factor, clip to [-1, 1], scale by 32767, and convert to a 16-bit
integer by truncation toward zero. -/
def pcmSample (s volume : ℚ) : ℤ := truncInt (clip (s * volumeFactor volume) * 32767)

/-- Little-endian two-byte encoding of one 16-bit signed sample, as
produced by numpy int16 tobytes() on a little-endian platform. -/
def toBytes16LE (n : ℤ) : List Nat :=
  [(n % 65536).toNat % 256, (n % 65536).toNat / 256]

/-- Lines 94-101 applied to a whole chunk waveform: the byte string
handed to self.driver._player.feed, samples concatenated in order. -/
def process (wav : List ℚ) (volume : ℚ) : List Nat :=
  (wav.map (fun s => toBytes16LE (pcmSample s volume))).flatten

/-- Modelled from the spec, section 4.3: pcm = round(clip(sample *
(volume_percent/100) * gain_constant, -1.0, 1.0) * 32767). Stated only
for comparison against pcmSample, which is what the code computes. -/
def specProcessSample (s volumePercent gain : ℚ) : ℤ :=
  round (clip (s * (volumePercent / 100) * gain) * 32767)

/-- Python str.strip() as used at lines 71 and 272: remove leading and
trailing whitespace. Implemented on the character list so that it is
computable by kernel reduction. -/
def pyStrip (s : String) : String :=
  ⟨((s.data.dropWhile Char.isWhitespace).reverse.dropWhile Char.isWhitespace).reverse⟩

/-- One request tuple as pushed by speak (line 275):
(text, lang_code, style_obj, speed, index). The style object is opaque;
it is modelled by an optional tag. -/
structure Request where
  text : String
  lang : String
  style : Option Nat
  speed : ℚ
  index : Option Nat
deriving DecidableEq

/-- Result of one call to tts_engine._infer on a chunk (line 84):
the call can raise (caught only by the per-request handler at line 109),
return a waveform, or return None for the waveform. -/
inductive InferResult where
  | exn : InferResult
  | noAudio : InferResult
  | wav : List ℚ → InferResult
deriving DecidableEq

/-- Environment of one dequeued request as seen by the worker.

arrive t is true when a cancel() call lands just before the t-th read of
cancel_event (reads are numbered in program order; the signal can be set
by any thread at any time, and within one request it is never cleared,
so OR-accumulating arrivals at each read captures every interleaving).
infer i is the outcome of the i-th _infer call of this request.
chunker models chunk_text(text, max_len=150) from the helper module,
which is outside src/ and therefore kept abstract.
hasEngine models truthiness of self.driver.tts_engine (line 71),
hasPlayer truthiness of self.driver._player (line 103), and
volume the live value of self.driver._volume (line 94). -/
structure Env where
  arrive : Nat → Bool
  infer : Nat → InferResult
  chunker : String → List String
  hasEngine : Bool
  hasPlayer : Bool
  volume : ℚ

/-- Outcome of the per-chunk for loop (lines 75-104). -/
structure LoopResult where
  feeds : List (List Nat)
  t : Nat
  flag : Bool
  faulted : Bool
deriving DecidableEq

/-- Lines 75-104: iterate the chunks in order. Each chunk first reads
cancel_event (line 76, one read) and breaks if set; then _infer runs: on
an exception the whole request aborts (the try at line 67 has no
per-chunk handler); otherwise cancel_event is read again (line 92, one
read) and, when clear and the waveform is present and a player exists,
the post-processed bytes are fed to the sink. -/
def chunkLoop (env : Env) : List String → Nat → Nat → Bool → LoopResult
  | [], _, t, f => ⟨[], t, f, false⟩
  | _ :: rest, i, t, f =>
    let f1 := f || env.arrive t
    if f1 then ⟨[], t + 1, f1, false⟩
    else
      match env.infer i with
      | .exn => ⟨[], t + 1, f1, true⟩
      | .noAudio => chunkLoop env rest (i + 1) (t + 2) (f1 || env.arrive (t + 1))
      | .wav w =>
        let r := chunkLoop env rest (i + 1) (t + 2) (f1 || env.arrive (t + 1))
        if f1 || env.arrive (t + 1) then r
        else if env.hasPlayer then { r with feeds := process w env.volume :: r.feeds } else r

/-- Observable outcome of processing one dequeued request:
feeds are the buffers handed to player.feed in order, indexed is the
marker delivered through synthIndexReached (none when not fired),
doneCount counts synthDoneSpeaking, faulted records that an exception
reached the handler at line 109, t is the next read number and flag the
final value of cancel_event. -/
structure RunResult where
  feeds : List (List Nat)
  indexed : Option Nat
  doneCount : Nat
  faulted : Bool
  t : Nat
  flag : Bool
deriving DecidableEq

/-- Lines 64-113: processing of one dequeued request. The incoming
cancel_event value f0 is discarded by the unconditional clear() at
line 64. Reads of cancel_event happen at line 68 (one read), inside the
chunk loop, and at line 106 (one read, taken only when the request
carries a marker, because the Python and short-circuits). The finally
block (lines 111-113) always fires synthDoneSpeaking exactly once. -/
def processRequest (env : Env) (t0 : Nat) (f0 : Bool) (req : Request) : RunResult :=
  let fA := false || env.arrive t0
  if fA then ⟨[], none, 1, false, t0 + 1, fA⟩
  else if (req.text != "") && (pyStrip req.text != "") && env.hasEngine then
    let r := chunkLoop env (env.chunker req.text) 0 (t0 + 1) fA
    if r.faulted then ⟨r.feeds, none, 1, true, r.t, r.flag⟩
    else
      match req.index with
      | none => ⟨r.feeds, none, 1, false, r.t, r.flag⟩
      | some ix =>
        let fD := r.flag || env.arrive r.t
        ⟨r.feeds, if fD then none else some ix, 1, false, r.t + 1, fD⟩
  else
    match req.index with
    | none => ⟨[], none, 1, false, t0 + 1, fA⟩
    | some ix =>
      let fD := fA || env.arrive (t0 + 1)
      ⟨[], if fD then none else some ix, 1, false, t0 + 2, fD⟩

/-- One item of an NVDA speech sequence as far as speak inspects it
(lines 264-268): a plain string, an IndexCommand, or anything else. -/
inductive SpeechItem where
  | str : String → SpeechItem
  | indexCommand : Nat → SpeechItem
  | other : SpeechItem
deriving DecidableEq

/-- Marker carried by an item, when it is an IndexCommand. -/
def getIdx : SpeechItem → Option Nat
  | .indexCommand i => some i
  | _ => none

/-- Modelled from the claim wording: the marker of the last IndexCommand
of the sequence, if any. Stated independently of the fold in speak so
that the two can be compared. -/
def lastMarker : List SpeechItem → Option Nat
  | [] => none
  | item :: rest =>
    match lastMarker rest with
    | some m => some m
    | none => getIdx item

/-- Loop body of speak (lines 264-268): strings are appended to
text_parts, each IndexCommand overwrites last_index, anything else is
ignored. -/
def speakStep (acc : List String × Option Nat) (item : SpeechItem) : List String × Option Nat :=
  match item with
  | .str s => (acc.1 ++ [s], acc.2)
  | .indexCommand i => (acc.1, some i)
  | .other => acc

/-- Driver facade state: the fields of SynthDriver touched by speak,
cancel and _initialize_async. voiceLoaded models _voice_loaded_event,
playerStopped records that player.stop() ran, hasWorker and hasPlayer
model truthiness of _worker_thread and _player. -/
structure DriverState where
  voiceLoaded : Bool
  queue : List Request
  cancelFlag : Bool
  playerStopped : Bool
  hasWorker : Bool
  hasPlayer : Bool
  hasEngine : Bool
  currentLang : String
  currentStyle : Option Nat
deriving DecidableEq

/-- Lines 257-281: speak returns at once when the voice-loaded event is
unset; otherwise it folds the sequence into (text_parts, last_index),
joins the parts, and enqueues one request when the combined text is
non-blank or a marker is present. Speed is the hard-coded 1.05. -/
def speak (st : DriverState) (speechSequence : List SpeechItem) : DriverState :=
  if !st.voiceLoaded then st
  else
    let acc := speechSequence.foldl speakStep ([], none)
    let combined := String.join acc.1
    if (pyStrip combined != "") || acc.2.isSome then
      { st with queue := st.queue ++
          [{ text := combined, lang := st.currentLang, style := st.currentStyle,
             speed := 21 / 20, index := acc.2 }] }
    else st

/-- Lines 291-295: the drain loop of cancel, get_nowait until empty. -/
def drain : List Request → List Request
  | [] => []
  | _ :: rest => drain rest

/-- Lines 283-295: cancel sets the worker cancel_event when a worker
exists, stops the player when one exists, then drains the request
queue. -/
def cancel (st : DriverState) : DriverState :=
  let st1 := if st.hasWorker then { st with cancelFlag := true } else st
  let st2 := if st1.hasPlayer then { st1 with playerStopped := true } else st1
  { st2 with queue := drain st2.queue }

/-- Lines 187-220: the async initializer returns early (voice-loaded
event never set) when tts.json is missing, and an exception raised by
the engine load or by the player construction is caught by the handler
at line 208 before the event is set. A missing style file or an
exception inside the style load, however, is swallowed by _load_style
itself (lines 211-220): initialization then continues, the player is
created and the event is still set at line 206, only current_style_obj
stays unset. -/
def initializeAsync (ttsJsonExists engineFault styleExists styleFault playerFault : Bool)
    (st : DriverState) : DriverState :=
  if !ttsJsonExists then st
  else if engineFault then st
  else if playerFault then
    if styleExists && !styleFault then
      { st with hasEngine := true, currentStyle := some 0 }
    else { st with hasEngine := true }
  else
    if styleExists && !styleFault then
      { st with hasEngine := true, currentStyle := some 0, hasPlayer := true, voiceLoaded := true }
    else { st with hasEngine := true, hasPlayer := true, voiceLoaded := true }

/-- Concrete worker environment: a cancel call lands before read 0. -/
def envC1 : Env :=
  { arrive := fun t => t == 0, infer := fun _ => .wav [1/2],
    chunker := fun _ => ["hello wo", "rld"], hasEngine := true,
    hasPlayer := true, volume := 100 }

/-- Concrete request used with envC1. -/
def reqC1 : Request :=
  { text := "hello world", lang := "en", style := none, speed := 21/20, index := some 3 }

/-- Concrete worker environment: no cancel ever arrives, the gateway
raises on the second chunk (ordinal 1) of three. -/
def envC2 : Env :=
  { arrive := fun _ => false,
    infer := fun k => if k == 1 then .exn else .wav [],
    chunker := fun _ => ["a", "b", "c"], hasEngine := true,
    hasPlayer := true, volume := 50 }

/-- Concrete three-chunk request used with envC2. -/
def reqC2 : Request :=
  { text := "abc", lang := "en", style := none, speed := 21/20, index := none }

/-- Concrete worker environment: no cancel ever arrives and the gateway
raises on the only chunk. -/
def envC7 : Env :=
  { arrive := fun _ => false, infer := fun _ => .exn,
    chunker := fun _ => ["x"], hasEngine := true,
    hasPlayer := true, volume := 50 }

/-- Concrete one-chunk request carrying a marker, used with envC7. -/
def reqC7 : Request :=
  { text := "x", lang := "en", style := none, speed := 21/20, index := some 5 }

/-- Concrete worker environment: a cancel call lands before read 0,
used to witness that only arrivals from the dequeue time onward
matter. -/
def envC5 : Env :=
  { arrive := fun t => t == 0, infer := fun _ => .wav [],
    chunker := fun _ => ["a"], hasEngine := true,
    hasPlayer := true, volume := 50 }

/-- Concrete request used with envC5. -/
def reqC5 : Request :=
  { text := "a", lang := "en", style := none, speed := 21/20, index := none }

/-- Concrete driver state with the voice loaded. -/
def stC10 : DriverState :=
  { voiceLoaded := true, queue := [], cancelFlag := false, playerStopped := false,
    hasWorker := true, hasPlayer := true, hasEngine := true,
    currentLang := "en", currentStyle := none }

/-- Concrete speech sequence with two index commands. -/
def seqC10 : List SpeechItem := [.indexCommand 1, .str "hi", .indexCommand 7]

/-- Concrete driver state before initialization. -/
def stC8 : DriverState :=
  { voiceLoaded := false, queue := [], cancelFlag := false, playerStopped := false,
    hasWorker := true, hasPlayer := false, hasEngine := false,
    currentLang := "en", currentStyle := none }

-- ---------------------------------------------------------------------
-- Lemmas and theorems
-- ---------------------------------------------------------------------

lemma clip_le_one (x : ℚ) : clip x ≤ 1 := min_le_left _ _

lemma neg_one_le_clip (x : ℚ) : -1 ≤ clip x :=
  le_min (by norm_num) (le_max_left _ _)

lemma process_cons (s : ℚ) (rest : List ℚ) (v : ℚ) :
    process (s :: rest) v = toBytes16LE (pcmSample s v) ++ process rest v := by
  simp [process]

lemma process_length (wav : List ℚ) (v : ℚ) :
    (process wav v).length = 2 * wav.length := by
  induction wav with
  | nil => simp [process]
  | cons s rest ih =>
    rw [process_cons, List.length_append, ih]
    simp [toBytes16LE]
    ring

lemma pcmSample_bounds (s v : ℚ) :
    -32767 ≤ pcmSample s v ∧ pcmSample s v ≤ 32767 := by
  have h1 : -1 ≤ clip (s * volumeFactor v) := neg_one_le_clip _
  have h2 : clip (s * volumeFactor v) ≤ 1 := clip_le_one _
  have hy1 : (-32767 : ℚ) ≤ clip (s * volumeFactor v) * 32767 := by nlinarith
  have hy2 : clip (s * volumeFactor v) * 32767 ≤ 32767 := by nlinarith
  unfold pcmSample truncInt
  split
  next hpos =>
    constructor
    · have h0 : (0 : ℤ) ≤ ⌊clip (s * volumeFactor v) * 32767⌋ := Int.floor_nonneg.2 hpos
      omega
    · have := (Int.floor_le (clip (s * volumeFactor v) * 32767)).trans hy2
      exact_mod_cast this
  next hneg =>
    constructor
    · have := hy1.trans (Int.le_ceil (clip (s * volumeFactor v) * 32767))
      exact_mod_cast this
    · have h0 : ⌈clip (s * volumeFactor v) * 32767⌉ ≤ 0 := by
        rw [Int.ceil_le]
        push_cast
        linarith [not_le.1 hneg]
      omega

/-- C4 counterexample: the code truncates toward zero where the claim
says round. At sample 1/4 with volume 100 (gain constant 2.0), the code
emits 16383 while the rounding formula of the claim gives 16384. -/
theorem claim_c4_counterexample :
    pcmSample (1/4) 100 = 16383 ∧ specProcessSample (1/4) 100 2 = 16384 ∧
    pcmSample (1/4) 100 ≠ specProcessSample (1/4) 100 2 := by
  have hc : clip ((1 : ℚ)/4 * volumeFactor 100) = 1/2 := by
    norm_num [clip, volumeFactor]
  have hc2 : clip ((1 : ℚ)/4 * (100 / 100) * 2) = 1/2 := by
    norm_num [clip]
  refine ⟨?_, ?_, ?_⟩
  · rw [pcmSample, hc, truncInt]
    norm_num
  · rw [specProcessSample, hc2, round_eq]
    norm_num
  · rw [pcmSample, hc, truncInt, specProcessSample, hc2, round_eq]
    norm_num

/-- C4 as amended: the post-processor clips sample * (volume/100) * 2
to [-1, 1], quantizes by truncation toward zero (not rounding), and
emits little-endian signed 16-bit samples concatenated in order; every
output lies in [-32767, 32767] so no overflow or wraparound occurs, and
a sample that clips to exactly 1 maps to 32767 while one that clips to
exactly -1 maps to -32767. -/
theorem claim_c4_truncating_quantizer (wav rest : List ℚ) (v s : ℚ) :
    process (s :: rest) v = toBytes16LE (pcmSample s v) ++ process rest v ∧
    (process wav v).length = 2 * wav.length ∧
    (-32767 ≤ pcmSample s v ∧ pcmSample s v ≤ 32767) ∧
    (clip (s * volumeFactor v) = 1 →
      pcmSample s v = 32767 ∧ toBytes16LE (pcmSample s v) = [255, 127]) ∧
    (clip (s * volumeFactor v) = -1 →
      pcmSample s v = -32767 ∧ toBytes16LE (pcmSample s v) = [1, 128]) := by
  refine ⟨process_cons s rest v, process_length wav v, pcmSample_bounds s v, ?_, ?_⟩
  · intro h
    have hx : pcmSample s v = 32767 := by
      rw [pcmSample, h, truncInt]
      norm_num
    refine ⟨hx, ?_⟩
    rw [hx]
    decide
  · intro h
    have hx : pcmSample s v = -32767 := by
      rw [pcmSample, h, truncInt]
      rw [if_neg (by norm_num)]
      rw [show ((-1 : ℚ) * 32767) = ((-32767 : ℤ) : ℚ) by norm_num, Int.ceil_intCast]
    refine ⟨hx, ?_⟩
    rw [hx]
    decide

/-- C4 witness: a sample clipping to exactly 1 at volume 100 yields
exactly 32767 (bytes 255, 127), and one clipping to exactly -1 yields
exactly -32767 (bytes 1, 128). -/
theorem claim_c4_witness :
    (pcmSample 1 100 = 32767 ∧ toBytes16LE (pcmSample 1 100) = [255, 127]) ∧
    (pcmSample (-1) 100 = -32767 ∧ toBytes16LE (pcmSample (-1) 100) = [1, 128]) := by
  constructor
  · exact (claim_c4_truncating_quantizer [] [] 100 1).2.2.2.1
      (by norm_num [clip, volumeFactor])
  · exact (claim_c4_truncating_quantizer [] [] 100 (-1)).2.2.2.2
      (by norm_num [clip, volumeFactor])

lemma pcmSample_vol_zero (s : ℚ) : pcmSample s 0 = 0 := by
  have h : clip (s * volumeFactor 0) = 0 := by
    norm_num [clip, volumeFactor]
  rw [pcmSample, h, truncInt]
  norm_num

/-- C9: with volume 0 the post-processor emits an all-zero PCM buffer,
two zero bytes (one zero 16-bit sample) per input sample. -/
theorem claim_c9_zero_volume (wav : List ℚ) :
    process wav 0 = List.replicate (2 * wav.length) 0 := by
  induction wav with
  | nil => simp [process]
  | cons s rest ih =>
    rw [process_cons, pcmSample_vol_zero, ih]
    have : 2 * (s :: rest).length = 2 * rest.length + 2 := by
      simp [List.length_cons]; ring
    rw [this]
    rfl

lemma chunkLoop_cancel_le (env : Env) :
    ∀ (chunks : List String) (i t n : Nat) (f : Bool),
    (f = true ∨ ∃ j, j ≤ 2 * n + 1 ∧ env.arrive (t + j) = true) →
    (chunkLoop env chunks i t f).feeds.length ≤ n := by
  intro chunks
  induction chunks with
  | nil => intro i t n f _h; simp [chunkLoop]
  | cons c rest ih =>
    intro i t n f h
    cases f with
    | true => simp [chunkLoop]
    | false =>
      rcases h with hf | ⟨j, hj, ha⟩
      · exact absurd hf (by simp)
      cases hat : env.arrive t with
      | true => simp [chunkLoop, hat]
      | false =>
        have hj0 : j ≠ 0 := by
          intro h0
          rw [h0, Nat.add_zero, hat] at ha
          exact absurd ha (by simp)
        cases hinf : env.infer i with
        | exn => simp [chunkLoop, hat, hinf]
        | noAudio =>
          simp only [chunkLoop, hat, hinf, Bool.or_false, Bool.false_or, if_false,
            Bool.false_eq_true, ite_false]
          by_cases hat1 : env.arrive (t + 1) = true
          · exact ih (i + 1) (t + 2) n _ (Or.inl (by simp [hat1]))
          · have hb : env.arrive (t + 1) = false := by
              cases hv : env.arrive (t + 1)
              · rfl
              · exact absurd hv hat1
            have hj1 : j ≠ 1 := by
              intro h1
              rw [h1, hb] at ha
              exact absurd ha (by simp)
            refine ih (i + 1) (t + 2) n _ (Or.inr ⟨j - 2, by omega, ?_⟩)
            have hrw : t + 2 + (j - 2) = t + j := by omega
            rw [hrw]
            exact ha
        | wav w =>
          simp only [chunkLoop, hat, hinf, Bool.or_false, Bool.false_or, if_false,
            Bool.false_eq_true, ite_false]
          by_cases hat1 : env.arrive (t + 1) = true
          · simp only [hat1, ite_true]
            exact ih (i + 1) (t + 2) n _ (Or.inl (by simp [hat1]))
          · have hb : env.arrive (t + 1) = false := by
              cases hv : env.arrive (t + 1)
              · rfl
              · exact absurd hv hat1
            have hj1 : j ≠ 1 := by
              intro h1
              rw [h1, hb] at ha
              exact absurd ha (by simp)
            have hn : 1 ≤ n := by omega
            have hrec : (chunkLoop env rest (i + 1) (t + 2) (env.arrive (t + 1))).feeds.length
                ≤ n - 1 := by
              refine ih (i + 1) (t + 2) (n - 1) _ (Or.inr ⟨j - 2, by omega, ?_⟩)
              have hrw : t + 2 + (j - 2) = t + j := by omega
              rw [hrw]
              exact ha
            simp only [hb, Bool.false_eq_true, ite_false]
            cases hp : env.hasPlayer with
            | true =>
              simp only [hp, ite_true, List.length_cons]
              rw [hb] at hrec
              omega
            | false =>
              simp only [hp, Bool.false_eq_true, ite_false]
              rw [hb] at hrec
              omega

lemma chunkLoop_exn_le (env : Env) :
    ∀ (chunks : List String) (i t : Nat) (f : Bool) (k : Nat),
    env.infer k = .exn → i ≤ k →
    (chunkLoop env chunks i t f).feeds.length ≤ k - i := by
  intro chunks
  induction chunks with
  | nil => intro i t f k _hk _hik; simp [chunkLoop]
  | cons c rest ih =>
    intro i t f k hk hik
    by_cases h1 : (f || env.arrive t) = true
    · simp [chunkLoop, h1]
    · have h1f : (f || env.arrive t) = false := by
        cases hv : (f || env.arrive t)
        · rfl
        · exact absurd hv h1
      cases hinf : env.infer i with
      | exn => simp [chunkLoop, h1f, hinf]
      | noAudio =>
        have hlt : i < k := by
          rcases Nat.lt_or_ge i k with h | h
          · exact h
          · have : i = k := by omega
            rw [this, hk] at hinf
            exact absurd hinf (by simp)
        have := ih (i + 1) (t + 2) (env.arrive (t + 1)) k hk (by omega)
        simp only [chunkLoop, h1f, hinf, Bool.false_eq_true, ite_false, Bool.false_or]
        omega
      | wav w =>
        have hlt : i < k := by
          rcases Nat.lt_or_ge i k with h | h
          · exact h
          · have : i = k := by omega
            rw [this, hk] at hinf
            exact absurd hinf (by simp)
        have hrec := ih (i + 1) (t + 2) (env.arrive (t + 1)) k hk (by omega)
        simp only [chunkLoop, h1f, hinf, Bool.false_eq_true, ite_false, Bool.false_or]
        by_cases hat1 : env.arrive (t + 1) = true
        · rw [hat1] at hrec
          simp only [hat1, ite_true]
          omega
        · have hb : env.arrive (t + 1) = false := by
            cases hv : env.arrive (t + 1)
            · rfl
            · exact absurd hv hat1
          rw [hb] at hrec
          simp only [hb, Bool.false_eq_true, ite_false]
          cases hp : env.hasPlayer with
          | true =>
            simp only [hp, ite_true, List.length_cons]
            omega
          | false => simp only [hp, Bool.false_eq_true, ite_false]; omega

lemma chunkLoop_t_le (env : Env) :
    ∀ (chunks : List String) (i t : Nat) (f : Bool),
    t ≤ (chunkLoop env chunks i t f).t := by
  intro chunks
  induction chunks with
  | nil => intro i t f; simp [chunkLoop]
  | cons c rest ih =>
    intro i t f
    by_cases h1 : (f || env.arrive t) = true
    · simp [chunkLoop, h1]
    · have h1f : (f || env.arrive t) = false := by
        cases hv : (f || env.arrive t)
        · rfl
        · exact absurd hv h1
      cases hinf : env.infer i with
      | exn => simp [chunkLoop, h1f, hinf]
      | noAudio =>
        have := ih (i + 1) (t + 2) (env.arrive (t + 1))
        simp only [chunkLoop, h1f, hinf, Bool.false_eq_true, ite_false, Bool.false_or]
        omega
      | wav w =>
        have hrec := ih (i + 1) (t + 2) (env.arrive (t + 1))
        simp only [chunkLoop, h1f, hinf, Bool.false_eq_true, ite_false, Bool.false_or]
        by_cases hat1 : env.arrive (t + 1) = true
        · rw [hat1] at hrec
          simp only [hat1, ite_true]
          omega
        · have hb : env.arrive (t + 1) = false := by
            cases hv : env.arrive (t + 1)
            · rfl
            · exact absurd hv hat1
          rw [hb] at hrec
          simp only [hb, Bool.false_eq_true, ite_false]
          cases hp : env.hasPlayer with
          | true => simp only [hp, ite_true]; omega
          | false => simp only [hp, Bool.false_eq_true, ite_false]; omega

lemma chunkLoop_congr (env : Env) (a2 : Nat → Bool) :
    ∀ (chunks : List String) (i t : Nat) (f : Bool),
    (∀ u, t ≤ u → env.arrive u = a2 u) →
    chunkLoop env chunks i t f = chunkLoop { env with arrive := a2 } chunks i t f := by
  intro chunks
  induction chunks with
  | nil => intro i t f _h; simp [chunkLoop]
  | cons c rest ih =>
    intro i t f h
    have h0 : env.arrive t = a2 t := h t (Nat.le_refl t)
    have h1 : env.arrive (t + 1) = a2 (t + 1) := h (t + 1) (by omega)
    have hrec := ih (i + 1) (t + 2) ((f || a2 t) || a2 (t + 1))
      (fun u hu => h u (by omega))
    simp only [chunkLoop, h0, h1]
    rw [hrec]

lemma processRequest_done (env : Env) (t0 : Nat) (f0 : Bool) (req : Request) :
    (processRequest env t0 f0 req).doneCount = 1 := by
  unfold processRequest
  dsimp only
  repeat' split
  all_goals rfl

lemma processRequest_indexed (env : Env) (t0 : Nat) (f0 : Bool) (req : Request) :
    (processRequest env t0 f0 req).indexed = none ∨
    (processRequest env t0 f0 req).indexed = req.index := by
  unfold processRequest
  dsimp only
  repeat' split
  all_goals simp_all

/-- C1: once a cancel call has landed by the time of the pre-feed check
of chunk i (read number 2 + 2i of the request: one read at line 68, two
per earlier chunk, then the pre-feed read of chunk i at line 92), chunk
i and everything after it are discarded, so at most the i earlier chunks
ever reach player.feed; with i = 0 (cancel before any chunk finishes
inferring) no feed at all occurs for the request. -/
theorem claim_c1_cancel_no_feed (env : Env) (t0 : Nat) (f0 : Bool) (req : Request) (i : Nat)
    (h : ∃ j, j ≤ 2 + 2 * i ∧ env.arrive (t0 + j) = true) :
    (processRequest env t0 f0 req).feeds.length ≤ i := by
  obtain ⟨j, hj, ha⟩ := h
  unfold processRequest
  dsimp only
  split
  · simp
  next hA =>
    have hAf : env.arrive t0 = false := by
      revert hA
      cases env.arrive t0 <;> simp
    have hj0 : j ≠ 0 := by
      intro h0
      rw [h0, Nat.add_zero, hAf] at ha
      exact absurd ha (by simp)
    have harr : env.arrive (t0 + 1 + (j - 1)) = true := by
      have hrw : t0 + 1 + (j - 1) = t0 + j := by omega
      rw [hrw]
      exact ha
    have hc := chunkLoop_cancel_le env (env.chunker req.text) 0 (t0 + 1) i
      (env.arrive t0) (Or.inr ⟨j - 1, by omega, harr⟩)
    repeat' split
    all_goals first | exact hc | simp

/-- C1 witness: in envC1 a cancel lands before the first read, and the
concrete two-chunk request produces zero feed calls. -/
theorem claim_c1_witness :
    envC1.arrive 0 = true ∧ (processRequest envC1 0 false reqC1).feeds.length ≤ 0 :=
  ⟨rfl, claim_c1_cancel_no_feed envC1 0 false reqC1 0 ⟨0, by omega, rfl⟩⟩

/-- C2 counterexample: with the gateway raising on chunk 2 of 3 (ordinal
1) and no cancellation, the code produces exactly one feed call (chunk 1
only), not the two the claim states: the exception at line 84 is caught
only by the per-request handler at line 109, so chunk 3 is never
processed. -/
theorem claim_c2_counterexample :
    (processRequest envC2 0 false reqC2).feeds.length = 1 ∧
    (processRequest envC2 0 false reqC2).feeds.length ≠ 2 ∧
    (processRequest envC2 0 false reqC2).faulted = true ∧
    (processRequest envC2 0 false reqC2).doneCount = 1 := by
  decide

/-- C2 as amended: a fault raised by the Inference Gateway on chunk k is
caught at the request boundary, not per chunk: the faulting chunk and
every later chunk produce no feed (so at most k feeds occur, from the
chunks before the fault), no exception escapes the request boundary, and
the done-speaking observer still fires exactly once. -/
theorem claim_c2_fault_aborts_request (env : Env) (t0 : Nat) (f0 : Bool) (req : Request)
    (k : Nat) (hk : env.infer k = .exn) :
    (processRequest env t0 f0 req).feeds.length ≤ k ∧
    (processRequest env t0 f0 req).doneCount = 1 := by
  refine ⟨?_, processRequest_done env t0 f0 req⟩
  unfold processRequest
  dsimp only
  have hc := chunkLoop_exn_le env (env.chunker req.text) 0 (t0 + 1)
    (env.arrive t0) k hk (Nat.zero_le k)
  rw [Nat.sub_zero] at hc
  repeat' split
  all_goals first | exact hc | simp

/-- C2 witness: the amended theorem applied to the concrete faulting
environment envC2, whose gateway raises on chunk ordinal 1. -/
theorem claim_c2_witness :
    envC2.infer 1 = .exn ∧
    ((processRequest envC2 0 false reqC2).feeds.length ≤ 1 ∧
     (processRequest envC2 0 false reqC2).doneCount = 1) :=
  ⟨rfl, claim_c2_fault_aborts_request envC2 0 false reqC2 1 rfl⟩

/-- C3: the finally block at lines 111-113 runs on every exit path of
the per-request try (normal completion, the continue at line 69, and
the exception handler at line 109), so synthDoneSpeaking fires exactly
once for every dequeued request, cancelled, blank or faulted alike. -/
theorem claim_c3_done_speaking_once (env : Env) (t0 : Nat) (f0 : Bool) (req : Request) :
    (processRequest env t0 f0 req).doneCount = 1 :=
  processRequest_done env t0 f0 req

/-- C5: the unconditional cancel_event.clear() at line 64 makes the
processing of a dequeued request depend only on cancel calls arriving
from its own dequeue onward: neither the cancel_event value inherited
from the previous request (f0 versus f1) nor any arrival strictly
before read t0 can change the outcome. -/
theorem claim_c5_clear_on_dequeue (env : Env) (a2 : Nat → Bool) (t0 : Nat) (f0 f1 : Bool)
    (req : Request) (h : ∀ u, t0 ≤ u → env.arrive u = a2 u) :
    processRequest env t0 f0 req = processRequest { env with arrive := a2 } t0 f1 req := by
  have h0 : env.arrive t0 = a2 t0 := h t0 (Nat.le_refl t0)
  have h1 : env.arrive (t0 + 1) = a2 (t0 + 1) := h (t0 + 1) (by omega)
  have hcl := chunkLoop_congr env a2 (env.chunker req.text) 0 (t0 + 1) (false || a2 t0)
    (fun u hu => h u (by omega))
  have ht := chunkLoop_t_le { env with arrive := a2 } (env.chunker req.text) 0 (t0 + 1)
    (false || a2 t0)
  unfold processRequest
  dsimp only
  rw [h0, hcl, h1,
    h ((chunkLoop { env with arrive := a2 } (env.chunker req.text) 0 (t0 + 1)
      (false || a2 t0)).t) (by omega)]

/-- C5 witness: a cancel arriving before the dequeue of the witnessed
request (read 1 onward belongs to it) changes nothing, and neither does
the inherited cancel_event value. -/
theorem claim_c5_witness :
    processRequest envC5 1 false reqC5 =
      processRequest { envC5 with arrive := fun _ => false } 1 true reqC5 :=
  claim_c5_clear_on_dequeue envC5 (fun _ => false) 1 false true reqC5
    (by
      intro u hu
      have hne : u ≠ 0 := by omega
      simp [envC5, hne])

/-- C7 counterexample: a request carrying marker 5 whose only chunk
makes the gateway raise is never cancelled (final cancel_event is
false), yet synthIndexReached does not fire, because the exception
skips line 106; so the claimed equivalence with non-cancellation is
false on the code. -/
theorem claim_c7_counterexample :
    (processRequest envC7 0 false reqC7).indexed = none ∧
    (processRequest envC7 0 false reqC7).flag = false ∧
    (processRequest envC7 0 false reqC7).faulted = true ∧
    (processRequest envC7 0 false reqC7).doneCount = 1 := by
  decide

/-- C7 as amended: for a request carrying a marker, synthIndexReached
fires exactly once if and only if no gateway fault aborted the request
and the cancellation signal was still clear at the reporting check of
line 106; a request with blank text still produces zero feed calls and
exactly one done-speaking regardless. -/
theorem claim_c7_index_iff (env : Env) (t0 : Nat) (f0 : Bool) (req : Request) (m : Nat)
    (hm : req.index = some m) :
    ((processRequest env t0 f0 req).indexed = some m ↔
      ((processRequest env t0 f0 req).faulted = false ∧
       (processRequest env t0 f0 req).flag = false)) ∧
    (pyStrip req.text = "" →
      (processRequest env t0 f0 req).feeds = [] ∧
      (processRequest env t0 f0 req).doneCount = 1) := by
  constructor
  · unfold processRequest
    dsimp only
    rw [hm]
    repeat' split
    all_goals try simp_all
    all_goals (intro ha; casesm _ ∨ _ <;> simp_all)
  · intro hblank
    have hcond : (req.text != "" && pyStrip req.text != "" && env.hasEngine) = false := by
      simp [hblank]
    unfold processRequest
    dsimp only
    rw [hm, hcond]
    repeat' split
    all_goals simp_all

/-- C7 witness: the amended equivalence instantiated at the concrete
faulting request reqC7 (marker 5): the left and right sides are both
false there. -/
theorem claim_c7_witness :
    ((processRequest envC7 0 false reqC7).indexed = some 5 ↔
      ((processRequest envC7 0 false reqC7).faulted = false ∧
       (processRequest envC7 0 false reqC7).flag = false)) ∧
    (pyStrip reqC7.text = "" →
      (processRequest envC7 0 false reqC7).feeds = [] ∧
      (processRequest envC7 0 false reqC7).doneCount = 1) :=
  claim_c7_index_iff envC7 0 false reqC7 5 rfl

lemma drain_eq_nil : ∀ l : List Request, drain l = [] := by
  intro l
  induction l with
  | nil => rfl
  | cons a rest ih => simpa [drain] using ih

/-- C6: cancel empties the request queue entirely, and in addition sets
the worker cancellation signal (when a worker thread exists) and stops
the player (when one exists); the model is sequential, matching the
absence of concurrent pushes. -/
theorem claim_c6_cancel_drains_queue (st : DriverState) :
    (cancel st).queue = [] ∧
    (cancel st).cancelFlag = (st.hasWorker || st.cancelFlag) ∧
    (cancel st).playerStopped = (st.hasPlayer || st.playerStopped) := by
  unfold cancel
  cases hw : st.hasWorker <;> cases hp : st.hasPlayer <;>
    simp [hw, hp, drain_eq_nil]

lemma speak_not_loaded (st : DriverState) (seq : List SpeechItem)
    (h : st.voiceLoaded = false) : speak st seq = st := by
  simp [speak, h]

/-- C8 counterexample: with tts.json present and engine and player
loading cleanly but the style assets missing, _load_style swallows the
fault (lines 211-220), _voice_loaded_event is still set at line 206,
and a subsequent speak call does enqueue a request: speak is not a
no-op after a style-asset initialization fault, refuting the claim for
the style half of its hypothesis. -/
theorem claim_c8_counterexample :
    (initializeAsync true false false false false stC8).voiceLoaded = true ∧
    (initializeAsync true false false false false stC8).currentStyle = none ∧
    stC8.queue = [] ∧
    (speak (initializeAsync true false false false false stC8)
      [SpeechItem.str "hi"]).queue.length = 1 := by
  decide

/-- C8 as amended: speak becomes a no-op only for the initialization
faults that reach the handler at line 208 before the event is set:
tts.json missing, the engine load raising, or the player construction
raising. For those, the voice-loaded event stays unset, initialization
enqueues nothing, and every subsequent speak call leaves the driver
state unchanged until initialization succeeds. Missing or faulty style
assets are swallowed inside _load_style and do not make speak a no-op
(see the counterexample). -/
theorem claim_c8_speak_noop_after_init_fault
    (tts engineFault styleExists styleFault playerFault : Bool) (st : DriverState)
    (seqs : List (List SpeechItem)) (h1 : st.voiceLoaded = false)
    (h2 : tts = false ∨ engineFault = true ∨ playerFault = true) :
    (initializeAsync tts engineFault styleExists styleFault playerFault st).voiceLoaded = false ∧
    (initializeAsync tts engineFault styleExists styleFault playerFault st).queue = st.queue ∧
    seqs.foldl speak (initializeAsync tts engineFault styleExists styleFault playerFault st) =
      initializeAsync tts engineFault styleExists styleFault playerFault st := by
  have hinit :
      (initializeAsync tts engineFault styleExists styleFault playerFault st).voiceLoaded
          = false ∧
      (initializeAsync tts engineFault styleExists styleFault playerFault st).queue
          = st.queue := by
    cases tts with
    | false => simp [initializeAsync, h1]
    | true =>
      cases engineFault with
      | true => simp [initializeAsync, h1]
      | false =>
        have hp : playerFault = true := by
          rcases h2 with h | h | h
          · exact absurd h (by simp)
          · exact absurd h (by simp)
          · exact h
        subst hp
        by_cases hs : (styleExists && !styleFault) = true <;>
          simp [initializeAsync, h1, hs]
  refine ⟨hinit.1, hinit.2, ?_⟩
  induction seqs with
  | nil => rfl
  | cons s rest ih =>
    rw [List.foldl_cons, speak_not_loaded _ s hinit.1]
    exact ih

/-- C8 witness: with tts.json missing, the voice-loaded event stays
unset, nothing is enqueued, and a subsequent speak call with the text
hi leaves the post-initialization driver state unchanged. -/
theorem claim_c8_witness :
    (initializeAsync false false true false false stC8).voiceLoaded = false ∧
    (initializeAsync false false true false false stC8).queue = stC8.queue ∧
    [[SpeechItem.str "hi"]].foldl speak (initializeAsync false false true false false stC8) =
      initializeAsync false false true false false stC8 :=
  claim_c8_speak_noop_after_init_fault false false true false false stC8
    [[SpeechItem.str "hi"]] rfl (Or.inl rfl)

lemma foldl_speakStep_idx :
    ∀ (seq : List SpeechItem) (p : List String) (i : Option Nat),
    (seq.foldl speakStep (p, i)).2 =
      match lastMarker seq with
      | some m => some m
      | none => i := by
  intro seq
  induction seq with
  | nil => intro p i; rfl
  | cons item rest ih =>
    intro p i
    rw [List.foldl_cons]
    cases item <;>
      (dsimp only [speakStep]
       rw [ih]
       cases hlm : lastMarker rest <;> simp [lastMarker, hlm, getIdx])

/-- C10: when a speech sequence contains index commands, the request
that speak enqueues carries only the marker of the last one (each
IndexCommand overwrites last_index in the loop at lines 264-268), and
any index-reached delivery for that request can only carry that last
marker: earlier markers are dropped without any delivery. -/
theorem claim_c10_last_marker_wins (st : DriverState) (seq : List SpeechItem) (m : Nat)
    (h1 : st.voiceLoaded = true) (h2 : lastMarker seq = some m) :
    ∃ r : Request, (speak st seq).queue = st.queue ++ [r] ∧ r.index = some m ∧
      ∀ (env : Env) (t0 : Nat) (f0 : Bool),
        (processRequest env t0 f0 r).indexed = none ∨
        (processRequest env t0 f0 r).indexed = some m := by
  have hidx : (seq.foldl speakStep ([], none)).2 = some m := by
    rw [foldl_speakStep_idx seq [] none, h2]
  have hspeak : speak st seq =
      { st with queue := st.queue ++
          [{ text := String.join (seq.foldl speakStep ([], none)).1,
             lang := st.currentLang, style := st.currentStyle,
             speed := 21 / 20, index := some m }] } := by
    unfold speak
    rw [h1]
    dsimp only
    rw [hidx]
    simp
  refine ⟨_, by rw [hspeak], rfl, ?_⟩
  intro env t0 f0
  rcases processRequest_indexed env t0 f0
    { text := String.join (seq.foldl speakStep ([], none)).1,
      lang := st.currentLang, style := st.currentStyle,
      speed := 21 / 20, index := some m } with h | h
  · exact Or.inl h
  · exact Or.inr h

/-- C10 witness: a sequence containing markers 1 and then 7 enqueues a
single request carrying marker 7 only. -/
theorem claim_c10_witness :
    stC10.voiceLoaded = true ∧ lastMarker seqC10 = some 7 ∧
    (∃ r : Request, (speak stC10 seqC10).queue = stC10.queue ++ [r] ∧ r.index = some 7 ∧
      ∀ (env : Env) (t0 : Nat) (f0 : Bool),
        (processRequest env t0 f0 r).indexed = none ∨
        (processRequest env t0 f0 r).indexed = some 7) :=
  ⟨rfl, rfl, claim_c10_last_marker_wins stC10 seqC10 7 rfl rfl⟩

end Supertonic
